import Mathlib

/-!
# Golden-Triangle Scorecard: verified model of the scoring pipeline

A shallow embedding of the scoring pipeline of `src/app.py` (the
"Golden-Triangle Scorecard" Streamlit script).  Numeric values are modelled
by `ℚ`; missing CSV cells by `Option`.  The embedding follows the source:

* `aggregate` models the `df.groupby('...uuid').agg({...})` call
  (lines 101-108): pandas `groupby` drops rows whose key is null
  (`dropna=True` default), takes the `first` non-null display name and
  permalink, `sum`s the amounts with missing values counted as 0, and
  `max`es the announcement dates.
* Line 111 sets `companies['employees'] = 1` unconditionally; line 127
  computes `efficiency = raised_usd / employees`.
* `scaleAt` / `minmaxScale` model `MinMaxScaler(feature_range=(0, 100))`
  `.fit_transform` (lines 138-140): `(v - min) * 100 / (max - min)`, where
  sklearn replaces a zero range by 1 (`_handle_zeros_in_scale`), so a
  constant column maps to 0, never to NaN or infinity.
* `svcScore` models line 141-143: the raw rating, with the `'N/A'`
  sentinel mapped to 0.
* `overallScore` is the row mean of the three pillar scores (line 146;
  all three entries are always present and finite, so pandas `mean(axis=1)`
  is the plain arithmetic mean).
* `rankAvg` models `companies['overall_score'].rank(ascending=False)`
  (line 147).  pandas `Series.rank` defaults to the `'average'` tie
  method: an entry's rank is the mean of the positions its tie group
  occupies in descending order, i.e. `g + (t + 1) / 2` where `g` counts
  strictly greater entries and `t` counts entries equal to it.
* `fetch_company_data` models the enrichment cache client (lines 29-77)
  together with the Python binding semantics of its local variables:
  on a cache miss, the locals `langs` and `rating` are bound only inside
  the `try:` block, after the first search succeeded with a non-empty
  result list; when the search raises or returns no results, the
  fall-through `data = {'languages': len(set(langs)), ...}` at line 69
  raises `NameError`, which the function does not catch.
-/

namespace Scorecard

/-- A rating is either the `'N/A'` string sentinel or a number
(line 55 initialises `rating = "N/A"`; line 63 may rebind it to a float). -/
inductive Rating where
  | na : Rating
  | val : ℚ → Rating
deriving DecidableEq, Repr, Inhabited

/-- The enrichment record persisted in the per-company cache file:
`{'languages': ..., 'rating': ...}` (lines 68-71). -/
structure EnrichData where
  languages : ℕ
  rating : Rating
deriving DecidableEq, Repr, Inhabited

/-- One input CSV row (a funding round).  `employeeCount` stands for any
employee-count column present in the uploaded CSV; the pipeline never
reads it. -/
structure FundingRound where
  uuid : Option String
  company : Option String
  permalink : Option String
  raisedUsd : Option ℚ
  announcedOn : Option String
  employeeCount : Option ℚ
deriving DecidableEq, Repr

/-- One row of the `companies` frame right after the groupby/agg and
column renaming (lines 101-108). -/
structure CompanyRow where
  uuid : String
  company : Option String
  websiteUrl : Option String
  raisedUsd : ℚ
  latestFunding : Option String
deriving DecidableEq, Repr

/-- Amount contributed by one row to the `'sum'` aggregation: pandas sums
with `skipna=True`, so a missing amount counts as 0. -/
def amountOf (r : FundingRound) : ℚ :=
  r.raisedUsd.getD 0

/-- The rows belonging to the group of key `k`. -/
def groupRows (rows : List FundingRound) (k : String) : List FundingRound :=
  rows.filter (fun r => decide (r.uuid = some k))

/-- pandas `GroupBy.first`: the first non-null value of the column. -/
def firstNonNull (xs : List (Option String)) : Option String :=
  (xs.filterMap id).head?

/-- Group total of `results__money_raised__value_usd`. -/
def sumRaised (g : List FundingRound) : ℚ :=
  (g.map amountOf).sum

/-- pandas `GroupBy.max` over the non-null announcement dates. -/
def maxDate (xs : List String) : Option String :=
  xs.foldl
    (fun acc s =>
      match acc with
      | none => some s
      | some t => some (max t s))
    none

/-- The group keys: the distinct non-null uuids.  pandas `groupby` with
its default `dropna=True` silently drops rows whose key is NaN. -/
def uuidKeys (rows : List FundingRound) : List String :=
  (rows.filterMap (fun r => r.uuid)).dedup

/-- The groupby/agg of lines 101-108: one `CompanyRow` per distinct
non-null uuid. -/
def aggregate (rows : List FundingRound) : List CompanyRow :=
  (uuidKeys rows).map (fun k =>
    let g := groupRows rows k
    { uuid := k
      company := firstNonNull (g.map (fun r => r.company))
      websiteUrl := firstNonNull (g.map (fun r => r.permalink))
      raisedUsd := sumRaised g
      latestFunding := maxDate (g.filterMap (fun r => r.announcedOn)) })

/-- Minimum of a column (only used on non-empty columns, as in sklearn). -/
def colMin : List ℚ → ℚ
  | [] => 0
  | x :: rest => rest.foldl min x

/-- Maximum of a column. -/
def colMax : List ℚ → ℚ
  | [] => 0
  | x :: rest => rest.foldl max x

/-- sklearn `_handle_zeros_in_scale`: a zero range is replaced by 1 so
that a constant column scales to 0 instead of dividing by zero. -/
def scaleDenom (xs : List ℚ) : ℚ :=
  if colMax xs - colMin xs = 0 then 1 else colMax xs - colMin xs

/-- `MinMaxScaler(feature_range=(0, 100))` applied to one value of the
fitted column `xs`. -/
def scaleAt (xs : List ℚ) (v : ℚ) : ℚ :=
  (v - colMin xs) * 100 / scaleDenom xs

/-- `MinMaxScaler(feature_range=(0, 100)).fit_transform` on a column. -/
def minmaxScale (xs : List ℚ) : List ℚ :=
  xs.map (scaleAt xs)

/-- Lines 141-143: the service-quality score is the raw rating, with the
`'N/A'` sentinel mapped to 0. -/
def svcScore : Rating → ℚ
  | Rating.na => 0
  | Rating.val q => q

/-- pandas `Series.rank(ascending=False)` with the default `'average'`
tie method, as a function of the column and one of its values: the count
of strictly greater entries plus the average position within the tie
group. -/
def rankAvg (scores : List ℚ) (x : ℚ) : ℚ :=
  (scores.countP (fun y => decide (x < y)) : ℚ)
    + ((scores.countP (fun y => decide (y = x)) : ℚ) + 1) / 2

/-- A row of the final scored table. -/
structure ScoredCompany where
  uuid : String
  company : Option String
  websiteUrl : Option String
  raisedUsd : ℚ
  latestFunding : Option String
  employees : ℚ
  languages : ℚ
  rating : Rating
  efficiency : ℚ
  accessScore : ℚ
  efficiencyScore : ℚ
  serviceQualityScore : ℚ
  overallScore : ℚ
  moonfireRank : ℚ
deriving DecidableEq, Repr, Inhabited

/-- The `languages` column value for one company: line 123 maps the
company name through the `extra_data` dict (default 0 never fires, the
dict was filled from the same rows). -/
def langOf (enrich : Option String → EnrichData) (c : CompanyRow) : ℚ :=
  ((enrich c.company).languages : ℚ)

/-- Line 127: `efficiency = raised_usd / employees`, where line 111 set
the `employees` column to the constant 1. -/
def effOf (c : CompanyRow) : ℚ :=
  c.raisedUsd / 1

/-- Lines 123-146 for one company row: enrichment columns, efficiency,
the three pillar scores (each min-max scaled against its whole column)
and the overall score (rank not yet assigned). -/
def scoreRow (langCol effCol : List ℚ) (enrich : Option String → EnrichData)
    (c : CompanyRow) : ScoredCompany :=
  let a := scaleAt langCol (langOf enrich c)
  let e := scaleAt effCol (effOf c)
  let s := svcScore (enrich c.company).rating
  { uuid := c.uuid
    company := c.company
    websiteUrl := c.websiteUrl
    raisedUsd := c.raisedUsd
    latestFunding := c.latestFunding
    employees := 1
    languages := langOf enrich c
    rating := (enrich c.company).rating
    efficiency := effOf c
    accessScore := a
    efficiencyScore := e
    serviceQualityScore := s
    overallScore := (a + e + s) / 3
    moonfireRank := 0 }

/-- Lines 123-146: enrichment columns, efficiency, the three pillar
scores and the overall score for the whole table. -/
def preScore (rows : List FundingRound) (enrich : Option String → EnrichData) :
    List ScoredCompany :=
  let agg := aggregate rows
  agg.map (scoreRow (agg.map (langOf enrich)) (agg.map effOf) enrich)

/-- The full scored table, line 147 included:
`companies['moonfire_rank'] = companies['overall_score'].rank(ascending=False)`. -/
def scorePipeline (rows : List FundingRound) (enrich : Option String → EnrichData) :
    List ScoredCompany :=
  let pre := preScore rows enrich
  let overallCol := pre.map (fun c => c.overallScore)
  pre.map (fun c => { c with moonfireRank := rankAvg overallCol c.overallScore })

/-- The `overall_score` column of the scored table. -/
def overallScores (rows : List FundingRound) (enrich : Option String → EnrichData) :
    List ℚ :=
  (scorePipeline rows enrich).map (fun c => c.overallScore)

/-! ### Enrichment cache client (lines 26-77) -/

/-- What the external search/scrape collaborator does on one cache-miss
call: either the first search raises or returns no results (in both
cases the locals `langs` and `rating` are never bound), or the scrape
succeeds and yields the languages found and possibly a rating. -/
inductive FetchOutcome where
  | failure
  | success (langs : List String) (rating : Rating)
deriving Repr

/-- A Python exception escaping `fetch_company_data`. -/
inductive PyErr where
  | nameError (var : String)
deriving DecidableEq, Repr

/-- The cache directory: file name to stored record. -/
abbrev Cache := List (String × EnrichData)

/-- `get_cache_key` (lines 26-27): spaces replaced by underscores, `.json`
appended (the `cache/` directory prefix is dropped from the model;
`replace(' ', '_')` with a one-character pattern is exactly a character
map over the string). -/
def get_cache_key (company_name : String) : String :=
  String.mk (company_name.data.map (fun c => if c = ' ' then '_' else c)) ++ ".json"

/-- `os.path.exists` + `json.load` on the cache file. -/
def lookupCache (cache : Cache) (key : String) : Option EnrichData :=
  (cache.find? (fun p => decide (p.1 = key))).map (fun p => p.2)

/-- Result of one `fetch_company_data` call: the returned record or the
escaping exception, the cache state afterwards, and how many external
search calls were made. -/
structure FetchResult where
  result : Except PyErr EnrichData
  cache : Cache
  searchCalls : ℕ
deriving Repr

/-- `fetch_company_data` (lines 29-77).  A cache hit returns the stored
record at once.  On a miss, when the search raises or yields no result
the locals `langs` and `rating` are unbound, so building the record at
line 69 raises `NameError` (the `except` block already exited); on
success the record is built, written to the cache and returned. -/
def fetch_company_data (cache : Cache) (outcome : FetchOutcome)
    (company_name : String) : FetchResult :=
  let key := get_cache_key company_name
  match lookupCache cache key with
  | some d => { result := Except.ok d, cache := cache, searchCalls := 0 }
  | none =>
    match outcome with
    | FetchOutcome.failure =>
        { result := Except.error (PyErr.nameError "langs")
          cache := cache
          searchCalls := 1 }
    | FetchOutcome.success langs rating =>
        let d : EnrichData := { languages := langs.dedup.length, rating := rating }
        { result := Except.ok d, cache := (key, d) :: cache, searchCalls := 2 }

/-- The enrichment loop of `main` (lines 117-121): fetch every company in
turn; an exception escaping `fetch_company_data` propagates out of the
loop (to the broad handler at line 218, which aborts the run with
`st.error`). -/
def enrichLoop (cache : Cache) (outcome : String → FetchOutcome) :
    List String → Except PyErr (List (String × EnrichData) × Cache)
  | [] => Except.ok ([], cache)
  | name :: rest =>
    let f := fetch_company_data cache (outcome name) name
    match f.result with
    | Except.error e => Except.error e
    | Except.ok d =>
      match enrichLoop f.cache outcome rest with
      | Except.error e => Except.error e
      | Except.ok (xs, c) => Except.ok ((name, d) :: xs, c)

/-! ### Helper lemmas: counting, ranking -/

/-- Counting entries above the higher of two scores, together with the
ties at that score, never exceeds the count of entries above the lower
score. -/
theorem countP_gt_add_eq_le (l : List ℚ) (b x : ℚ) (hbx : b < x) :
    l.countP (fun y => decide (x < y)) + l.countP (fun y => decide (y = x))
      ≤ l.countP (fun y => decide (b < y)) := by
  induction l with
  | nil => simp
  | cons a t ih =>
    simp only [List.countP_cons]
    by_cases h1 : x < a
    · have hba : b < a := lt_trans hbx h1
      have hne : ¬ a = x := ne_of_gt h1
      simp [h1, hba, hne]
      omega
    · by_cases h2 : a = x
      · have hba : b < a := by rw [h2]; exact hbx
        have hxx : ¬ x < a := by rw [h2]; exact lt_irrefl x
        simp [hxx, h2, hba, hbx]
        omega
      · by_cases h3 : b < a
        · simp [h1, h2, h3]; omega
        · simp [h1, h2, h3]; omega

/-- A member of the column is tied with itself at least once. -/
theorem one_le_countP_eq (l : List ℚ) (b : ℚ) (hb : b ∈ l) :
    1 ≤ l.countP (fun y => decide (y = b)) := by
  induction l with
  | nil => cases hb
  | cons a t ih =>
    simp only [List.countP_cons]
    rcases List.mem_cons.1 hb with h | h
    · simp [h]
    · have := ih h; omega

/-- pandas average ranking is strictly monotone against the score order:
a strictly higher overall score receives a strictly smaller rank. -/
theorem rankAvg_lt_of_gt (scores : List ℚ) (a b : ℚ) (hb : b ∈ scores) (hba : b < a) :
    rankAvg scores a < rankAvg scores b := by
  have h1 := countP_gt_add_eq_le scores b a hba
  have h2 := one_le_countP_eq scores b hb
  unfold rankAvg
  have h1q : ((scores.countP (fun y => decide (a < y)) : ℚ)
      + (scores.countP (fun y => decide (y = a)) : ℚ))
      ≤ (scores.countP (fun y => decide (b < y)) : ℚ) := by
    exact_mod_cast h1
  have h2q : (1 : ℚ) ≤ (scores.countP (fun y => decide (y = b)) : ℚ) := by
    exact_mod_cast h2
  have h3q : (0 : ℚ) ≤ (scores.countP (fun y => decide (y = a)) : ℚ) := by positivity
  linarith

/-! ### Helper lemmas: sums and grouping -/

/-- Pointwise sums split. -/
theorem sum_map_add {α : Type} (l : List α) (f g : α → ℚ) :
    (l.map (fun r => f r + g r)).sum = (l.map f).sum + (l.map g).sum := by
  induction l with
  | nil => simp
  | cons a t ih => simp [ih]; ring

/-- Double sums commute. -/
theorem sum_map_sum_comm {α β : Type} (ks : List α) (rs : List β) (f : α → β → ℚ) :
    (ks.map (fun k => (rs.map (f k)).sum)).sum
      = (rs.map (fun r => (ks.map (fun k => f k r)).sum)).sum := by
  induction ks with
  | nil => simp
  | cons k t ih =>
    simp only [List.map_cons, List.sum_cons, ih, sum_map_add]

/-- The total of one group is the indicator-weighted total over all rows. -/
theorem sumRaised_groupRows_eq (rows : List FundingRound) (k : String) :
    sumRaised (groupRows rows k)
      = (rows.map (fun r => if r.uuid = some k then amountOf r else 0)).sum := by
  induction rows with
  | nil => rfl
  | cons r t ih =>
    by_cases h : r.uuid = some k <;>
      simp [groupRows, sumRaised, List.filter_cons, h] <;>
      simpa [groupRows, sumRaised] using ih

/-- Summing an indicator of a key over a duplicate-free key list that
contains the key yields the value once. -/
theorem sum_map_ite_key (ks : List String) (q : String) (c : ℚ)
    (hnd : ks.Nodup) (hq : q ∈ ks) :
    (ks.map (fun k => if q = k then c else 0)).sum = c := by
  induction ks with
  | nil => cases hq
  | cons k t ih =>
    rcases List.nodup_cons.1 hnd with ⟨hk, hnd'⟩
    rcases List.mem_cons.1 hq with h | h
    · subst h
      have hzero : (t.map (fun x => if q = x then c else 0)).sum = 0 := by
        apply List.sum_eq_zero
        intro y hy
        rcases List.mem_map.1 hy with ⟨x, hx, rfl⟩
        have : ¬ q = x := fun hqx => hk (hqx ▸ hx)
        simp [this]
      simp [hzero]
    · have hne : ¬ q = k := fun hqk => hk (hqk ▸ h)
      simp [hne, ih hnd' h]

/-! ### Helper lemmas: min-max normalization -/

/-- A left fold by `min` stays below its seed. -/
theorem foldl_min_le_seed (l : List ℚ) : ∀ a : ℚ, l.foldl min a ≤ a := by
  induction l with
  | nil => intro a; exact le_refl a
  | cons x t ih =>
    intro a
    exact le_trans (ih (min a x)) (min_le_left a x)

/-- A left fold by `min` is below every element folded in. -/
theorem foldl_min_le_mem (l : List ℚ) (v : ℚ) (hv : v ∈ l) :
    ∀ a : ℚ, l.foldl min a ≤ v := by
  induction l with
  | nil => cases hv
  | cons x t ih =>
    intro a
    rcases List.mem_cons.1 hv with rfl | h
    · exact le_trans (foldl_min_le_seed t (min a v)) (min_le_right a v)
    · exact ih h (min a x)

/-- A left fold by `max` stays above its seed. -/
theorem le_foldl_max_seed (l : List ℚ) : ∀ a : ℚ, a ≤ l.foldl max a := by
  induction l with
  | nil => intro a; exact le_refl a
  | cons x t ih =>
    intro a
    exact le_trans (le_max_left a x) (ih (max a x))

/-- A left fold by `max` is above every element folded in. -/
theorem le_foldl_max_mem (l : List ℚ) (v : ℚ) (hv : v ∈ l) :
    ∀ a : ℚ, v ≤ l.foldl max a := by
  induction l with
  | nil => cases hv
  | cons x t ih =>
    intro a
    rcases List.mem_cons.1 hv with rfl | h
    · exact le_trans (le_max_right a v) (le_foldl_max_seed t (max a v))
    · exact ih h (max a x)

/-- The column minimum bounds every member from below. -/
theorem colMin_le_of_mem (xs : List ℚ) (v : ℚ) (hv : v ∈ xs) : colMin xs ≤ v := by
  cases xs with
  | nil => cases hv
  | cons x t =>
    rcases List.mem_cons.1 hv with rfl | h
    · exact le_trans (foldl_min_le_seed t v) (le_refl v)
    · exact foldl_min_le_mem t v h x

/-- The column maximum bounds every member from above. -/
theorem le_colMax_of_mem (xs : List ℚ) (v : ℚ) (hv : v ∈ xs) : v ≤ colMax xs := by
  cases xs with
  | nil => cases hv
  | cons x t =>
    rcases List.mem_cons.1 hv with rfl | h
    · exact le_trans (le_refl v) (le_foldl_max_seed t v)
    · exact le_foldl_max_mem t v h x

/-- The min-max scaled value of any member of the fitted column lies in
`[0, 100]` (the degenerate zero-range case collapses to 0). -/
theorem scaleAt_bounds (xs : List ℚ) (v : ℚ) (hv : v ∈ xs) :
    0 ≤ scaleAt xs v ∧ scaleAt xs v ≤ 100 := by
  have hmn := colMin_le_of_mem xs v hv
  have hmx := le_colMax_of_mem xs v hv
  unfold scaleAt scaleDenom
  by_cases h : colMax xs - colMin xs = 0
  · have hv0 : v - colMin xs = 0 := le_antisymm (by linarith) (by linarith)
    rw [if_pos h, hv0]
    norm_num
  · have hd : 0 < colMax xs - colMin xs := lt_of_le_of_ne (by linarith) (Ne.symm h)
    rw [if_neg h]
    constructor
    · apply div_nonneg _ (le_of_lt hd)
      nlinarith
    · rw [div_le_iff₀ hd]
      nlinarith

/-- The minimum of a column all of whose entries equal `c` is `c`. -/
theorem colMin_of_const (xs : List ℚ) (c : ℚ) (hne : xs ≠ [])
    (h : ∀ v ∈ xs, v = c) : colMin xs = c := by
  cases xs with
  | nil => cases hne rfl
  | cons x t =>
    have hseed : x = c := h x (List.mem_cons_self x t)
    have haux : ∀ (l : List ℚ), (∀ v ∈ l, v = c) → ∀ a, a = c → l.foldl min a = c := by
      intro l
      induction l with
      | nil => intro _ a ha; exact ha
      | cons y s ih =>
        intro hl a ha
        have hy : y = c := hl y (List.mem_cons_self y s)
        have hs : ∀ v ∈ s, v = c := fun v hv => hl v (List.mem_cons_of_mem y hv)
        exact ih hs (min a y) (by rw [ha, hy, min_self])
    exact haux t (fun v hv => h v (List.mem_cons_of_mem x hv)) x hseed

/-! ### Helper lemmas: shape of the scored table -/

/-- Unfolding membership in the scored table down to the aggregated row
it was built from. -/
theorem mem_scorePipeline (rows : List FundingRound)
    (enrich : Option String → EnrichData) (c : ScoredCompany)
    (hc : c ∈ scorePipeline rows enrich) :
    ∃ a ∈ aggregate rows,
      c = { scoreRow ((aggregate rows).map (langOf enrich))
              ((aggregate rows).map effOf) enrich a with
            moonfireRank :=
              rankAvg ((preScore rows enrich).map (fun p => p.overallScore))
                (scoreRow ((aggregate rows).map (langOf enrich))
                  ((aggregate rows).map effOf) enrich a).overallScore } := by
  simp only [scorePipeline, preScore, List.mem_map] at hc
  obtain ⟨p, ⟨a, ha, rfl⟩, rfl⟩ := hc
  exact ⟨a, ha, by simp [preScore]⟩

/-- Updating the rank column leaves the overall-score column unchanged. -/
theorem overallScores_eq_preScore (rows : List FundingRound)
    (enrich : Option String → EnrichData) :
    overallScores rows enrich = (preScore rows enrich).map (fun p => p.overallScore) := by
  simp only [overallScores, scorePipeline, List.map_map]
  rfl

/-! ### Helper lemmas: the aggregation step -/

/-- Rows with a null uuid contribute nothing to the key column. -/
theorem filterMap_uuid_filter_isSome (rows : List FundingRound) :
    (rows.filter (fun r => r.uuid.isSome)).filterMap (fun r => r.uuid)
      = rows.filterMap (fun r => r.uuid) := by
  induction rows with
  | nil => rfl
  | cons r t ih =>
    cases hu : r.uuid with
    | none => simp [List.filter_cons, List.filterMap_cons, hu, ih]
    | some u => simp [List.filter_cons, List.filterMap_cons, hu, ih]

/-- Rows with a null uuid belong to no group. -/
theorem groupRows_filter_isSome (rows : List FundingRound) (k : String) :
    groupRows (rows.filter (fun r => r.uuid.isSome)) k = groupRows rows k := by
  induction rows with
  | nil => rfl
  | cons r t ih =>
    cases hu : r.uuid with
    | none => simp [groupRows, List.filter_cons, hu] at ih ⊢; exact ih
    | some u => simp [groupRows, List.filter_cons, hu] at ih ⊢; by_cases h : u = k <;> simp [h, ih]

/-- Aggregation only ever reads the uuid, the display name, the
permalink, the amount and the date of a row: rewriting the
employee-count column changes nothing. -/
theorem aggregate_update_employeeCount (rows : List FundingRound)
    (f : FundingRound → Option ℚ) :
    aggregate (rows.map (fun r => { r with employeeCount := f r })) = aggregate rows := by
  have hkeys : (rows.map (fun r => { r with employeeCount := f r })).filterMap
      (fun r => r.uuid) = rows.filterMap (fun r => r.uuid) := by
    rw [List.filterMap_map]; rfl
  have hgrp : ∀ k, groupRows (rows.map (fun r => { r with employeeCount := f r })) k
      = (groupRows rows k).map (fun r => { r with employeeCount := f r }) := by
    intro k
    unfold groupRows
    rw [List.filter_map]
    rfl
  unfold aggregate uuidKeys
  rw [hkeys]
  congr 1
  funext k
  rw [hgrp]
  simp [sumRaised, amountOf, firstNonNull, List.map_map, List.filterMap_map,
    Function.comp_def]
  rfl

/-! ### A concrete run (the worked scenario of the spec, §8): two rounds
for company "a" of 100000 and 50000, one round for company "b" of 60000,
no enrichment data. -/

/-- Enrichment map with no data: 0 languages, unknown rating. -/
def exEnrich : Option String → EnrichData :=
  fun _ => { languages := 0, rating := Rating.na }

/-- Three funding rounds over two companies. -/
def exRows : List FundingRound :=
  [ { uuid := some "a", company := some "A", permalink := none, raisedUsd := some 100000,
      announcedOn := none, employeeCount := none }
  , { uuid := some "a", company := some "A", permalink := none, raisedUsd := some 50000,
      announcedOn := none, employeeCount := none }
  , { uuid := some "b", company := some "B", permalink := none, raisedUsd := some 60000,
      announcedOn := none, employeeCount := none } ]

/-- Aggregated row of company "a". -/
def aggA : CompanyRow :=
  { uuid := "a", company := some "A", websiteUrl := none, raisedUsd := 150000,
    latestFunding := none }

/-- Aggregated row of company "b". -/
def aggB : CompanyRow :=
  { uuid := "b", company := some "B", websiteUrl := none, raisedUsd := 60000,
    latestFunding := none }

theorem exKeys_eq : uuidKeys exRows = ["a", "b"] := by
  simp [uuidKeys, exRows]

theorem exAgg_eq : aggregate exRows = [aggA, aggB] := by
  rw [aggregate, exKeys_eq]
  simp +decide only [groupRows, exRows, List.filter_cons, List.filter_nil, List.map_cons]
  norm_num [sumRaised, amountOf, firstNonNull, maxDate, aggA, aggB, List.findSome?_cons]

/-- Company "a" as scored before ranking. -/
def exA : ScoredCompany :=
  { uuid := "a", company := some "A", websiteUrl := none, raisedUsd := 150000,
    latestFunding := none, employees := 1, languages := 0, rating := Rating.na,
    efficiency := 150000, accessScore := 0, efficiencyScore := 100,
    serviceQualityScore := 0, overallScore := 100 / 3, moonfireRank := 0 }

/-- Company "b" as scored before ranking. -/
def exB : ScoredCompany :=
  { uuid := "b", company := some "B", websiteUrl := none, raisedUsd := 60000,
    latestFunding := none, employees := 1, languages := 0, rating := Rating.na,
    efficiency := 60000, accessScore := 0, efficiencyScore := 0,
    serviceQualityScore := 0, overallScore := 0, moonfireRank := 0 }

theorem exPre_eq : preScore exRows exEnrich = [exA, exB] := by
  rw [preScore, exAgg_eq]
  norm_num [scoreRow, langOf, effOf, svcScore, scaleAt, scaleDenom, colMin, colMax,
    exEnrich, exA, exB, aggA, aggB]

/-- Company "a" with its final rank. -/
def exTop : ScoredCompany := { exA with moonfireRank := 1 }

/-- Company "b" with its final rank. -/
def exBot : ScoredCompany := { exB with moonfireRank := 2 }

theorem exTable_eq : scorePipeline exRows exEnrich = [exTop, exBot] := by
  rw [scorePipeline, exPre_eq]
  norm_num [rankAvg, exA, exB, exTop, exBot, List.countP_cons]

/-! ### A concrete run with an exact tie: two companies with identical
data, so identical overall scores. -/

/-- Two single-round companies with the same amount raised. -/
def tieRows : List FundingRound :=
  [ { uuid := some "a", company := some "A", permalink := none, raisedUsd := some 50,
      announcedOn := none, employeeCount := none }
  , { uuid := some "b", company := some "B", permalink := none, raisedUsd := some 50,
      announcedOn := none, employeeCount := none } ]

/-- Scored company "a" of the tie run: every pillar collapses to 0, both
overall scores are 0, and pandas average ranking assigns 3/2 to both. -/
def tieA : ScoredCompany :=
  { uuid := "a", company := some "A", websiteUrl := none, raisedUsd := 50,
    latestFunding := none, employees := 1, languages := 0, rating := Rating.na,
    efficiency := 50, accessScore := 0, efficiencyScore := 0,
    serviceQualityScore := 0, overallScore := 0, moonfireRank := 3 / 2 }

/-- Scored company "b" of the tie run. -/
def tieB : ScoredCompany :=
  { uuid := "b", company := some "B", websiteUrl := none, raisedUsd := 50,
    latestFunding := none, employees := 1, languages := 0, rating := Rating.na,
    efficiency := 50, accessScore := 0, efficiencyScore := 0,
    serviceQualityScore := 0, overallScore := 0, moonfireRank := 3 / 2 }

theorem tieAgg_eq : aggregate tieRows
    = [ { uuid := "a", company := some "A", websiteUrl := none, raisedUsd := 50,
          latestFunding := none }
      , { uuid := "b", company := some "B", websiteUrl := none, raisedUsd := 50,
          latestFunding := none } ] := by
  have hk : uuidKeys tieRows = ["a", "b"] := by simp [uuidKeys, tieRows]
  rw [aggregate, hk]
  simp +decide only [groupRows, tieRows, List.filter_cons, List.filter_nil, List.map_cons]
  norm_num [sumRaised, amountOf, firstNonNull, maxDate, List.findSome?_cons]

theorem tieTable_eq : scorePipeline tieRows exEnrich = [tieA, tieB] := by
  have hpre : preScore tieRows exEnrich
      = [ { tieA with moonfireRank := 0 }, { tieB with moonfireRank := 0 } ] := by
    rw [preScore, tieAgg_eq]
    norm_num [scoreRow, langOf, effOf, svcScore, scaleAt, scaleDenom, colMin, colMax,
      exEnrich, tieA, tieB]
  rw [scorePipeline, hpre]
  norm_num [rankAvg, tieA, tieB, List.countP_cons]

/-! ### A concrete run with an enrichment rating far above 100. -/

/-- One single-round company. -/
def cexRows : List FundingRound :=
  [ { uuid := some "z", company := some "Z", permalink := none, raisedUsd := some 10,
      announcedOn := none, employeeCount := none } ]

/-- Enrichment whose scraped rating is 500 (nothing in the code validates
or clamps the scraped value). -/
def badEnrich : Option String → EnrichData :=
  fun _ => { languages := 3, rating := Rating.val 500 }

/-- The scored single company of the bad-rating run: the raw rating is
passed through as the service-quality score. -/
def cexZ : ScoredCompany :=
  { uuid := "z", company := some "Z", websiteUrl := none, raisedUsd := 10,
    latestFunding := none, employees := 1, languages := 3, rating := Rating.val 500,
    efficiency := 10, accessScore := 0, efficiencyScore := 0,
    serviceQualityScore := 500, overallScore := 500 / 3, moonfireRank := 1 }

theorem cexTable_eq : scorePipeline cexRows badEnrich = [cexZ] := by
  have hk : uuidKeys cexRows = ["z"] := by simp [uuidKeys, cexRows]
  have hagg : aggregate cexRows
      = [ { uuid := "z", company := some "Z", websiteUrl := none, raisedUsd := 10,
            latestFunding := none } ] := by
    rw [aggregate, hk]
    simp +decide only [groupRows, cexRows, List.filter_cons, List.filter_nil, List.map_cons]
    norm_num [sumRaised, amountOf, firstNonNull, maxDate, List.findSome?_cons]
  have hpre : preScore cexRows badEnrich = [ { cexZ with moonfireRank := 0 } ] := by
    rw [preScore, hagg]
    norm_num [scoreRow, langOf, effOf, svcScore, scaleAt, scaleDenom, colMin, colMax,
      badEnrich, cexZ]
  rw [scorePipeline, hpre]
  norm_num [rankAvg, cexZ, List.countP_cons]

/-- A funding round whose company identifier is null (an empty CSV cell,
NaN after `read_csv`). -/
def nullRow : FundingRound :=
  { uuid := none, company := some "Ghost", permalink := none, raisedUsd := some 5,
    announcedOn := none, employeeCount := none }

/-! ## The claims -/

/-- C1, counterexample: the claim says rank = 1 + count of companies with
strictly greater overallScore.  In the tie run both companies have
overall score 0 and zero companies strictly above them, so the claimed
rank of each is 1; the code (pandas `rank` with its default `'average'`
tie method) assigns both the rank 3/2. -/
theorem rank_competition_rule_cex :
    (scorePipeline tieRows exEnrich).map (fun c => c.moonfireRank) = [3 / 2, 3 / 2]
      ∧ ((overallScores tieRows exEnrich).countP
            (fun y => decide (tieA.overallScore < y)) : ℚ) + 1 = 1
      ∧ ((3 : ℚ) / 2) ≠ 1 := by
  refine ⟨?_, ?_, by norm_num⟩
  · rw [tieTable_eq]
    norm_num [tieA, tieB]
  · rw [overallScores, tieTable_eq]
    norm_num [tieA, tieB, List.countP_cons]

/-- C1 (amended): the rank assigned to a company equals (count of
companies with strictly greater overallScore) + ((count of companies
with equal overallScore) + 1) / 2 — pandas `'average'` tie method, so
exact ties share a fractional averaged rank instead of the competition
rank 1 + count-greater.  The order properties hold as claimed: strictly
greater overallScore gives strictly smaller rank, equal overallScores
give equal ranks. -/
theorem rank_average_ranking (rows : List FundingRound)
    (enrich : Option String → EnrichData) (c d : ScoredCompany)
    (hc : c ∈ scorePipeline rows enrich) (hd : d ∈ scorePipeline rows enrich) :
    c.moonfireRank
        = ((overallScores rows enrich).countP
              (fun y => decide (c.overallScore < y)) : ℚ)
          + (((overallScores rows enrich).countP
                (fun y => decide (y = c.overallScore)) : ℚ) + 1) / 2
      ∧ (d.overallScore < c.overallScore → c.moonfireRank < d.moonfireRank)
      ∧ (d.overallScore = c.overallScore → d.moonfireRank = c.moonfireRank) := by
  have hcol := overallScores_eq_preScore rows enrich
  simp only [scorePipeline, List.mem_map] at hc hd
  obtain ⟨p, hp, rfl⟩ := hc
  obtain ⟨q, hq, rfl⟩ := hd
  refine ⟨?_, ?_, ?_⟩
  · rw [hcol]
    rfl
  · intro hlt
    have hmem : q.overallScore ∈ (preScore rows enrich).map (fun x => x.overallScore) :=
      List.mem_map.2 ⟨q, hq, rfl⟩
    exact rankAvg_lt_of_gt _ p.overallScore q.overallScore hmem hlt
  · intro heq
    show rankAvg _ q.overallScore = rankAvg _ p.overallScore
    rw [show q.overallScore = p.overallScore from heq]

/-- C1, witness: in the worked two-company run the top company's rank
satisfies the average-rank formula, and its strictly higher overall
score gives it a strictly smaller rank than the other company. -/
theorem rank_average_ranking_witness :
    exTop.moonfireRank
        = ((overallScores exRows exEnrich).countP
              (fun y => decide (exTop.overallScore < y)) : ℚ)
          + (((overallScores exRows exEnrich).countP
                (fun y => decide (y = exTop.overallScore)) : ℚ) + 1) / 2
      ∧ exTop.moonfireRank < exBot.moonfireRank := by
  have h := rank_average_ranking exRows exEnrich exTop exBot
    (by rw [exTable_eq]; exact List.mem_cons_self _ _)
    (by rw [exTable_eq]; exact List.mem_cons_of_mem _ (List.mem_cons_self _ _))
  exact ⟨h.1, h.2.1 (by norm_num [exTop, exBot, exA, exB])⟩

/-- C2: the claim says a cache miss whose fetch fails yields the default
record and never raises.  The code instead raises `NameError`: the
locals `langs` and `rating` are bound only inside the `try:` block after
a successful non-empty search, so line 69 (`len(set(langs))`) hits an
unbound local; the `except` handler has already exited and does not
cover it.  Evaluated here: empty cache, failing search, result is the
escaping exception, not a default record. -/
theorem fetch_failure_raises_nameerror :
    (fetch_company_data [] FetchOutcome.failure "Acme Corp").result
      = Except.error (PyErr.nameError "langs")
      ∧ (fetch_company_data [] FetchOutcome.failure "Acme Corp").cache = [] :=
  ⟨rfl, rfl⟩

/-- C3: every company's overallScore is exactly the unweighted arithmetic
mean of its three pillar scores (the model is exact rational arithmetic,
subsuming the 1e-9 floating tolerance). -/
theorem overall_is_pillar_mean (rows : List FundingRound)
    (enrich : Option String → EnrichData) (c : ScoredCompany)
    (hc : c ∈ scorePipeline rows enrich) :
    c.overallScore = (c.accessScore + c.efficiencyScore + c.serviceQualityScore) / 3 := by
  obtain ⟨a, ha, rfl⟩ := mem_scorePipeline rows enrich c hc
  rfl

/-- C3, witness: the mean identity evaluated on the worked run's top
company (overall 100/3 = (0 + 100 + 0) / 3). -/
theorem overall_is_pillar_mean_witness :
    exTop.overallScore
      = (exTop.accessScore + exTop.efficiencyScore + exTop.serviceQualityScore) / 3 :=
  overall_is_pillar_mean exRows exEnrich exTop
    (by rw [exTable_eq]; exact List.mem_cons_self _ _)

/-- C4, counterexample: serviceQualityScore is the raw enrichment rating
with no validation or clamping, so a scraped rating of 500 appears
unchanged in the output and lies outside [0, 100], refuting the claim
that every pillar score lies in [0, 100]. -/
theorem service_quality_unbounded_cex :
    (scorePipeline cexRows badEnrich).map (fun c => c.serviceQualityScore) = [500]
      ∧ ¬ ((500 : ℚ) ≤ 100) := by
  refine ⟨?_, by norm_num⟩
  rw [cexTable_eq]
  norm_num [cexZ]

/-- The rating is the `'N/A'` sentinel or a number within [0, 100]. -/
def ratingBounded : Rating → Prop
  | Rating.na => True
  | Rating.val q => 0 ≤ q ∧ q ≤ 100

/-- C4 (amended): accessScore and efficiencyScore always lie in [0, 100]
— unconditionally, for every enrichment map, bounded ratings or not
(min-max scaling of a member of the fitted column); serviceQualityScore
lies in [0, 100] provided every enrichment rating is the unknown
sentinel (scored 0) or a number in [0, 100] — the code passes the raw
rating through unclamped, so without that proviso the service bound
fails. -/
theorem pillar_scores_bounded (rows : List FundingRound)
    (enrich : Option String → EnrichData)
    (c : ScoredCompany) (hc : c ∈ scorePipeline rows enrich) :
    (0 ≤ c.accessScore ∧ c.accessScore ≤ 100)
      ∧ (0 ≤ c.efficiencyScore ∧ c.efficiencyScore ≤ 100)
      ∧ ((∀ s, ratingBounded (enrich s).rating) →
          0 ≤ c.serviceQualityScore ∧ c.serviceQualityScore ≤ 100) := by
  obtain ⟨a, ha, rfl⟩ := mem_scorePipeline rows enrich c hc
  have hacc := scaleAt_bounds ((aggregate rows).map (langOf enrich)) (langOf enrich a)
    (List.mem_map.2 ⟨a, ha, rfl⟩)
  have heff := scaleAt_bounds ((aggregate rows).map effOf) (effOf a)
    (List.mem_map.2 ⟨a, ha, rfl⟩)
  refine ⟨hacc, heff, ?_⟩
  intro hr
  have hb := hr a.company
  show 0 ≤ svcScore (enrich a.company).rating ∧ svcScore (enrich a.company).rating ≤ 100
  cases hrat : (enrich a.company).rating with
  | na => simp [svcScore]
  | val q =>
    rw [hrat] at hb
    simpa [svcScore, ratingBounded] using hb

/-- C4, witness: the bounds evaluated on the worked run's top company
(ratings all unknown there, so the rating proviso of the service-quality
conjunct holds trivially). -/
theorem pillar_scores_bounded_witness :
    (0 ≤ exTop.accessScore ∧ exTop.accessScore ≤ 100)
      ∧ (0 ≤ exTop.efficiencyScore ∧ exTop.efficiencyScore ≤ 100)
      ∧ (0 ≤ exTop.serviceQualityScore ∧ exTop.serviceQualityScore ≤ 100) := by
  have h := pillar_scores_bounded exRows exEnrich exTop
    (by rw [exTable_eq]; exact List.mem_cons_self _ _)
  exact ⟨h.1, h.2.1, h.2.2 (fun _ => True.intro)⟩

/-- C5: on a column whose values are all equal (single-row columns
included) the Normalizer outputs the constant 0 for every row — sklearn
replaces the zero range by 1, so the result is the well-defined rational
0, never a NaN or an infinity (which do not exist in `ℚ`). -/
theorem normalizer_const_zero (xs : List ℚ) (c : ℚ) (h : ∀ v ∈ xs, v = c) :
    minmaxScale xs = List.replicate xs.length 0 := by
  cases xs with
  | nil => rfl
  | cons x t =>
    have hmn : colMin (x :: t) = c := colMin_of_const (x :: t) c (by simp) h
    rw [List.eq_replicate_iff]
    constructor
    · simp [minmaxScale]
    · intro b hb
      obtain ⟨v, hv, rfl⟩ := List.mem_map.1 hb
      have hvc : v = c := h v hv
      unfold scaleAt
      rw [hvc, hmn]
      simp

/-- C5, witness: a two-row constant column scales to `[0, 0]`. -/
theorem normalizer_const_zero_witness :
    minmaxScale [(7 : ℚ), 7] = List.replicate 2 0 :=
  normalizer_const_zero [7, 7] 7 (by norm_num)

/-- C6: when no row has a null company identifier, the sum of
totalRaisedUsd over the aggregated companies equals the sum of all input
amounts, missing amounts counted as 0 (conservation law). -/
theorem total_raised_conserved (rows : List FundingRound)
    (h : ∀ r ∈ rows, r.uuid ≠ none) :
    ((aggregate rows).map (fun c => c.raisedUsd)).sum = (rows.map amountOf).sum := by
  have h1 : ((aggregate rows).map (fun c => c.raisedUsd)).sum
      = ((uuidKeys rows).map (fun k => sumRaised (groupRows rows k))).sum := by
    rw [aggregate, List.map_map]
    rfl
  have h2 : ∀ k ∈ uuidKeys rows,
      (fun k => sumRaised (groupRows rows k)) k
        = (fun k => (rows.map (fun r => if r.uuid = some k then amountOf r else 0)).sum) k :=
    fun k _ => sumRaised_groupRows_eq rows k
  have h3 : ∀ r ∈ rows,
      (fun r => ((uuidKeys rows).map (fun k => if r.uuid = some k then amountOf r else 0)).sum) r
        = (fun r => amountOf r) r := by
    intro r hr
    cases hu : r.uuid with
    | none => exact absurd hu (h r hr)
    | some q =>
      have hq : q ∈ uuidKeys rows :=
        List.mem_dedup.2 (List.mem_filterMap.2 ⟨r, hr, hu⟩)
      have hnd : (uuidKeys rows).Nodup := List.nodup_dedup _
      have hcond : ((uuidKeys rows).map (fun k => if r.uuid = some k then amountOf r else 0))
          = ((uuidKeys rows).map (fun k => if q = k then amountOf r else 0)) := by
        apply List.map_congr_left
        intro k _
        rw [hu]
        simp
      show ((uuidKeys rows).map (fun k => if r.uuid = some k then amountOf r else 0)).sum
        = amountOf r
      rw [hcond, sum_map_ite_key (uuidKeys rows) q (amountOf r) hnd hq]
  rw [h1, List.map_congr_left h2, sum_map_sum_comm, List.map_congr_left h3]

/-- C6, witness: conservation evaluated on the worked three-round run
(150000 + 60000 on both sides). -/
theorem total_raised_conserved_witness :
    ((aggregate exRows).map (fun c => c.raisedUsd)).sum = (exRows.map amountOf).sum :=
  total_raised_conserved exRows (by simp [exRows])

/-- C7: when a cache file exists for the company's key, the client
returns the stored record exactly as cached (even a degraded default),
performs zero external search calls, and leaves the cache unchanged. -/
theorem cache_hit_short_circuits (cache : Cache) (outcome : FetchOutcome)
    (company_name : String) (d : EnrichData)
    (h : lookupCache cache (get_cache_key company_name) = some d) :
    fetch_company_data cache outcome company_name
      = { result := Except.ok d, cache := cache, searchCalls := 0 } := by
  simp only [fetch_company_data, h]

/-- A cached enrichment record used by the cache-hit witness. -/
def exCached : EnrichData := { languages := 4, rating := Rating.val 3 }

/-- C7, witness: a concrete cache hit for "Acme Corp" (stored under
`Acme_Corp.json`) returns the cached record with zero search calls even
though the external fetch would fail. -/
theorem cache_hit_short_circuits_witness :
    fetch_company_data [("Acme_Corp.json", exCached)] FetchOutcome.failure "Acme Corp"
      = { result := Except.ok exCached, cache := [("Acme_Corp.json", exCached)],
          searchCalls := 0 } :=
  cache_hit_short_circuits [("Acme_Corp.json", exCached)] FetchOutcome.failure
    "Acme Corp" exCached rfl

/-- C8, counterexample: the claim says a row with a null identifier is
emitted as its own single-row group.  pandas `groupby` defaults to
`dropna=True`, so the model drops it: aggregating the one null-uuid row
yields an empty table, not one CompanyRecord. -/
theorem null_uuid_dropped_cex :
    aggregate [nullRow] = [] ∧ (aggregate [nullRow]).length ≠ 1 := by
  have h : aggregate [nullRow] = [] := rfl
  exact ⟨h, by rw [h]; simp⟩

/-- C8 (amended): rows whose company identifier is null are dropped by
the Aggregator (pandas `groupby` with its default `dropna=True`), not
kept as singleton groups: aggregation sees only the rows with a non-null
identifier.  (An empty-string identifier, by contrast, is an ordinary
key: all such rows form one shared group.) -/
theorem null_uuid_rows_dropped (rows : List FundingRound) :
    aggregate rows = aggregate (rows.filter (fun r => r.uuid.isSome)) := by
  unfold aggregate uuidKeys
  rw [filterMap_uuid_filter_isSome]
  congr 1
  funext k
  rw [groupRows_filter_isSome]

/-- C9: the claim says only input-malformed errors reach the caller and
enrichment fetch failures never surface.  Because of the unbound-local
bug (see C2), a single failing fetch makes the enrichment loop of `main`
propagate `NameError` instead of degrading to defaults; the broad
handler at line 218 then reports it via `st.error`, aborting the whole
run — an enrichment failure surfacing as a hard failure. -/
theorem enrichment_failure_aborts_run :
    enrichLoop [] (fun _ => FetchOutcome.failure) ["Acme"]
      = Except.error (PyErr.nameError "langs") :=
  rfl

/-- C10: aggregation reads no employee-count column — rewriting that
column of every input row arbitrarily leaves the scored table unchanged —
and every output company has employeeCount exactly 1 (line 111) and
therefore efficiency equal to its totalRaisedUsd (line 127 divides
by 1). -/
theorem employee_column_ignored (rows : List FundingRound)
    (enrich : Option String → EnrichData) (f : FundingRound → Option ℚ) :
    scorePipeline (rows.map (fun r => { r with employeeCount := f r })) enrich
        = scorePipeline rows enrich
      ∧ ∀ c ∈ scorePipeline rows enrich, c.employees = 1 ∧ c.efficiency = c.raisedUsd := by
  constructor
  · unfold scorePipeline preScore
    rw [aggregate_update_employeeCount]
  · intro c hc
    obtain ⟨a, ha, rfl⟩ := mem_scorePipeline rows enrich c hc
    refine ⟨rfl, ?_⟩
    show effOf a = a.raisedUsd
    unfold effOf
    exact div_one a.raisedUsd

end Scorecard
